import Mathlib

/-!
Verification of the benchmark-analysis tool (tools/bench_analyze.py).

The development shallowly embeds the data model and the metric-derivation
core of the script: BENCH-line extraction, baseline resolution, and the
strong- and weak-scaling metric computations.  Measured times are modelled
as exact rationals; the machine-level float rounding is irrelevant to the
structural properties proved here (every claimed equality is between
values the code computes by the very same expression, so it holds exactly
in floating point as well).
-/

set_option autoImplicit false

set_option allowUnsafeReducibility true
attribute [local semireducible] Rat.add Rat.mul Rat.inv Rat.div Rat.sub Rat.neg

/-- Decidable equality for Except, needed to evaluate parser results on
concrete inputs. -/
instance instDecEqExcept {ε α : Type _} [DecidableEq ε] [DecidableEq α] : DecidableEq (Except ε α)
  | Except.error x, Except.error y =>
    if h : x = y then .isTrue (congrArg Except.error h)
    else .isFalse (fun hc => h (Except.error.inj hc))
  | Except.error _, Except.ok _ => .isFalse (fun hc => Except.noConfusion hc)
  | Except.ok _, Except.error _ => .isFalse (fun hc => Except.noConfusion hc)
  | Except.ok x, Except.ok y =>
    if h : x = y then .isTrue (congrArg Except.ok h)
    else .isFalse (fun hc => h (Except.ok.inj hc))

namespace BenchAnalyze

/-- Whitespace characters, as matched by the regex class backslash-s on
ASCII input. -/
def pyIsSpace (c : Char) : Bool :=
  c = ' ' || c = '\t' || c = '\n' || c = '\r' || c = '\x0b' || c = '\x0c'

/-- Model of Python str.strip on a list of characters. -/
def pyStrip (s : List Char) : List Char :=
  ((s.dropWhile pyIsSpace).reverse.dropWhile pyIsSpace).reverse

/-- Consume an exact literal from the front of the input, returning the rest. -/
def dropLiteral : List Char → List Char → Option (List Char)
  | [], s => some s
  | c :: cs, d :: ds => if d = c then dropLiteral cs ds else none
  | _ :: _, [] => none

/-- Consume a non-empty maximal run of characters satisfying a class
(the plus-quantified character classes of the BENCH regex). -/
def takeTok (pred : Char → Bool) (s : List Char) : Option (List Char × List Char) :=
  let tok := s.takeWhile pred
  if tok.isEmpty then none else some (tok, s.drop tok.length)

/-- Numeric value of a run of decimal digits (Python int on the digit group). -/
def digitsToNat (ds : List Char) : Nat :=
  ds.foldl (fun n c => 10 * n + (c.toNat - '0'.toNat)) 0

/-- Raw groups captured by the BENCH regex: version token, the four integer
fields, and the raw time token (digits and dots, not yet converted). -/
structure BenchGroups where
  version : String
  n_bats : Nat
  iters : Nat
  procs : Nat
  threads : Nat
  timeTok : List Char
deriving DecidableEq

/-- Consume one regex field: a non-empty whitespace run, the literal
key-equals text, and a non-empty token of the given character class.
Returns the token and the rest of the input. -/
def benchField (lit : String) (pred : Char → Bool) (s : List Char) : Option (List Char × List Char) :=
  (takeTok pyIsSpace s).bind fun ws =>
  (dropLiteral lit.data ws.2).bind fun s1 =>
  takeTok pred s1

/-- Model of BENCH_RE.match on a stripped line.

The regex is
  BENCH ws version=NONSPACE ws n_bats=DIGITS ws iters=DIGITS ws procs=DIGITS
  ws threads=DIGITS ws time_s=DOTDIGITS ws-star end
and since every quantified class is disjoint from the whitespace separators
and from the literal that follows it, the backtracking match is equivalent
to this deterministic maximal-munch scan. -/
def benchMatch (line : List Char) : Option BenchGroups :=
  (dropLiteral "BENCH".data line).bind fun s0 =>
  (benchField "version=" (fun c => !pyIsSpace c) s0).bind fun v =>
  (benchField "n_bats=" Char.isDigit v.2).bind fun n =>
  (benchField "iters=" Char.isDigit n.2).bind fun i =>
  (benchField "procs=" Char.isDigit i.2).bind fun pr =>
  (benchField "threads=" Char.isDigit pr.2).bind fun th =>
  (benchField "time_s=" (fun c => c.isDigit || c = '.') th.2).bind fun tm =>
  if (tm.2.dropWhile pyIsSpace).isEmpty then
    some ⟨String.mk v.1, digitsToNat n.1, digitsToNat i.1,
          digitsToNat pr.1, digitsToNat th.1, tm.1⟩
  else none

/-- Model of Python float() applied to a token drawn from the class of
digits and dots: it succeeds exactly when the token has at most one dot
and at least one digit, and then denotes the exact decimal value. -/
def parseTimeTok (tok : List Char) : Option ℚ :=
  if tok.count '.' ≤ 1 ∧ tok.any Char.isDigit then
    let intPart := tok.takeWhile (fun c => c ≠ '.')
    let frac := tok.drop (intPart.length + 1)
    some ((digitsToNat intPart : ℚ) + (digitsToNat frac : ℚ) / (10 ^ frac.length : ℚ))
  else none

/-- One observed benchmark run (dataclass BenchRow of the source). -/
structure BenchRow where
  version : String
  n_bats : Nat
  iters : Nat
  procs : Nat
  threads : Nat
  time_s : ℚ
deriving DecidableEq

/-- Derived parallelism level p of a record (property BenchRow.p). -/
def BenchRow.p (r : BenchRow) : Nat :=
  if r.version = "openmp" then r.threads
  else if r.version = "mpi" then r.procs
  else 1

/-- Processing of one input line: no regex match is a silent skip,
a match whose time token is not a valid float literal is an uncaught
ValueError, and otherwise a complete record is produced. -/
def parseLine (line : String) : Except String (Option BenchRow) :=
  match benchMatch (pyStrip line.data) with
  | none => Except.ok none
  | some g =>
    match parseTimeTok g.timeTok with
    | none => Except.error "ValueError: could not convert string to float"
    | some t => Except.ok (some ⟨g.version, g.n_bats, g.iters, g.procs, g.threads, t⟩)

/-- Function parse_lines: extract all matching BENCH lines in order; the
first line whose matched time token fails float conversion aborts the
whole pass with that fault. -/
def parse_lines : List String → Except String (List BenchRow)
  | [] => Except.ok []
  | l :: ls =>
    match parseLine l with
    | Except.error e => Except.error e
    | Except.ok none => parse_lines ls
    | Except.ok (some r) =>
      match parse_lines ls with
      | Except.error e => Except.error e
      | Except.ok rest => Except.ok (r :: rest)

/-- One derived observation row of the metrics CSV (the dict built by the
metric functions, with the fixed field set of the CSV header). -/
structure MetricRow where
  mode : String
  version : String
  n_bats : Nat
  iters : Nat
  procs : Nat
  threads : Nat
  p : Nat
  time_s : ℚ
  baseline_n_bats : Nat
  T_base_s : ℚ
  T_seq1_s : ℚ
  T_self1_s : ℚ
  speedup : ℚ
  efficiency : ℚ
  speedup_seq : ℚ
  efficiency_seq : ℚ
  speedup_self : ℚ
  efficiency_self : ℚ
deriving DecidableEq

/-- Function find_baseline: minimum sequential time with the same
(n_bats, iters); raises SystemExit when no candidate exists. -/
def find_baseline (rows : List BenchRow) (n_bats iters : Nat) : Except String ℚ :=
  match (rows.filter (fun r =>
      decide (r.version = "sequential" ∧ r.n_bats = n_bats ∧ r.iters = iters))).map BenchRow.time_s with
  | [] => Except.error "Missing sequential baseline"
  | t :: ts => Except.ok (ts.foldl min t)

/-- Function find_self_baseline: minimum time of the same version at p = 1
for the same (n_bats, iters), or none. -/
def find_self_baseline (rows : List BenchRow) (version : String) (n_bats iters : Nat) : Option ℚ :=
  match (rows.filter (fun r =>
      decide (r.version = version ∧ r.n_bats = n_bats ∧ r.iters = iters ∧ r.p = 1))).map BenchRow.time_s with
  | [] => none
  | t :: ts => some (ts.foldl min t)

/-- The distinct parallelism levels occurring for one (version, n_bats,
iters) key; its length is the size of the set by_key builds per key in
_strong_metrics. -/
def distinctPs (rows : List BenchRow) (version : String) (n_bats iters : Nat) : List Nat :=
  ((rows.filter (fun r =>
      decide (r.version = version ∧ r.n_bats = n_bats ∧ r.iters = iters))).map BenchRow.p).dedup

/-- The strong-scaling metric row built from record r once the sequential
baseline time t_seq1 for its size is known (the dict literal appended by
_strong_metrics). -/
def mkStrongRow (rows : List BenchRow) (r : BenchRow) (t_seq1 : ℚ) : MetricRow :=
  let t_self1 := (find_self_baseline rows r.version r.n_bats r.iters).getD t_seq1
  let speedup_seq := if 0 < r.time_s then t_seq1 / r.time_s else 0
  let eff_seq := if 0 < r.p then speedup_seq / (r.p : ℚ) else 0
  let speedup_self := if 0 < r.time_s then t_self1 / r.time_s else 0
  let eff_self := if 0 < r.p then speedup_self / (r.p : ℚ) else 0
  { mode := "strong", version := r.version, n_bats := r.n_bats, iters := r.iters,
    procs := r.procs, threads := r.threads, p := r.p, time_s := r.time_s,
    baseline_n_bats := r.n_bats, T_base_s := t_seq1, T_seq1_s := t_seq1, T_self1_s := t_self1,
    speedup := speedup_self, efficiency := eff_self,
    speedup_seq := speedup_seq, efficiency_seq := eff_seq,
    speedup_self := speedup_self, efficiency_self := eff_self }

/-- The contribution of one record to the strong-scaling output: skipped
when a non-sequential record's key has fewer than two distinct p values,
or when its size has no sequential baseline. -/
def strongMetricRow (rows : List BenchRow) (r : BenchRow) : Option MetricRow :=
  if r.version ≠ "sequential" ∧ (distinctPs rows r.version r.n_bats r.iters).length < 2 then
    none
  else
    match find_baseline rows r.n_bats r.iters with
    | Except.error _ => none
    | Except.ok t_seq1 => some (mkStrongRow rows r t_seq1)

/-- Function _strong_metrics: one output row per qualifying record, in
input order. -/
def _strong_metrics (rows : List BenchRow) : List MetricRow :=
  rows.filterMap (strongMetricRow rows)

/-- Leftmost record with minimal n_bats, which is what Python min with an
n_bats key returns on the non-empty list x :: xs. -/
def minByNBats (x : BenchRow) (xs : List BenchRow) : BenchRow :=
  xs.foldl (fun best r => if r.n_bats < best.n_bats then r else best) x

/-- Function _weak_baseline: prefer the sequential p=1 record with the
smallest n_bats at this iters; fall back to the same version's own p=1
record; otherwise none. -/
def _weak_baseline (rows : List BenchRow) (iters : Nat) (version : String) : Option BenchRow :=
  match rows.filter (fun r =>
      decide (r.iters = iters ∧ r.version = "sequential" ∧ r.p = 1)) with
  | x :: xs => some (minByNBats x xs)
  | [] =>
    match rows.filter (fun r =>
        decide (r.iters = iters ∧ r.version = version ∧ r.p = 1)) with
    | x :: xs => some (minByNBats x xs)
    | [] => none

/-- The self-baseline time t_base_self of _weak_metrics: the same-version
p=1 record with smallest n_bats when one exists, else the time of the
result of a second _weak_baseline lookup, else t_base_seq. -/
def weakSelfTime (rows : List BenchRow) (iters : Nat) (version : String) (t_base_seq : ℚ) : ℚ :=
  match rows.filter (fun r =>
      decide (r.iters = iters ∧ r.version = version ∧ r.p = 1)) with
  | x :: xs => (minByNBats x xs).time_s
  | [] =>
    match _weak_baseline rows iters version with
    | some b => b.time_s
    | none => t_base_seq

/-- The weak-scaling metric row for one candidate record (the first dict
literal appended by _weak_metrics). -/
def mkWeakRow (base_n : Nat) (t_base_seq t_base_self : ℚ) (r : BenchRow) : MetricRow :=
  let weak_eff_seq := if 0 < r.time_s then t_base_seq / r.time_s else 0
  let weak_eff_self := if 0 < r.time_s then t_base_self / r.time_s else 0
  { mode := "weak", version := r.version, n_bats := r.n_bats, iters := r.iters,
    procs := r.procs, threads := r.threads, p := r.p, time_s := r.time_s,
    baseline_n_bats := base_n, T_base_s := t_base_seq, T_seq1_s := t_base_seq,
    T_self1_s := t_base_self,
    speedup := weak_eff_self, efficiency := weak_eff_self,
    speedup_seq := weak_eff_seq, efficiency_seq := weak_eff_seq,
    speedup_self := weak_eff_self, efficiency_self := weak_eff_self }

/-- The synthesized baseline observation row of _weak_metrics, with all
ratios fixed at 1. -/
def mkWeakBaselineRow (base_n : Nat) (t_base_seq t_base_self : ℚ) (b : BenchRow) : MetricRow :=
  { mode := "weak", version := b.version, n_bats := b.n_bats, iters := b.iters,
    procs := b.procs, threads := b.threads, p := 1, time_s := b.time_s,
    baseline_n_bats := base_n, T_base_s := t_base_seq, T_seq1_s := t_base_seq,
    T_self1_s := t_base_self,
    speedup := 1, efficiency := 1, speedup_seq := 1, efficiency_seq := 1,
    speedup_self := 1, efficiency_self := 1 }

/-- The rows one (iters, version) group contributes to the weak-scaling
output before deduplication: nothing when no baseline resolves, else one
row per candidate record plus the synthesized baseline row. -/
def weakGroupRows (rows : List BenchRow) (iters : Nat) (version : String) : List MetricRow :=
  match _weak_baseline rows iters version with
  | none => []
  | some baseline =>
    (rows.filter (fun r => decide (r.iters = iters ∧ r.version = version))).map
      (mkWeakRow baseline.n_bats baseline.time_s (weakSelfTime rows iters version baseline.time_s)) ++
    [mkWeakBaselineRow baseline.n_bats baseline.time_s
      (weakSelfTime rows iters version baseline.time_s) baseline]

/-- Insertion of one element into a le-sorted list, keeping stability. -/
def insertSorted {α : Type _} (le : α → α → Bool) (x : α) : List α → List α
  | [] => [x]
  | y :: ys => if le x y then x :: y :: ys else y :: insertSorted le x ys

/-- Stable insertion sort, modelling Python sorted. -/
def insertionSort {α : Type _} (le : α → α → Bool) : List α → List α
  | [] => []
  | x :: xs => insertSorted le x (insertionSort le xs)

/-- The ascending list of distinct iters values of the input. -/
def itersList (rows : List BenchRow) : List Nat :=
  insertionSort (fun a b => decide (a ≤ b)) ((rows.map BenchRow.iters).dedup)

/-- Lexicographic code-point comparison of character lists, the order
Python sorted uses on strings. -/
def charListLe : List Char → List Char → Bool
  | [], _ => true
  | _ :: _, [] => false
  | c :: cs, d :: ds =>
    if c.toNat < d.toNat then true
    else if d.toNat < c.toNat then false
    else charListLe cs ds

/-- The ascending list of distinct version labels of the input. -/
def versionsList (rows : List BenchRow) : List String :=
  insertionSort (fun a b => charListLe a.data b.data) ((rows.map BenchRow.version).dedup)

/-- All weak-scaling rows before deduplication, grouped by (iters, version)
with sequential version groups skipped. -/
def weakPreRows (rows : List BenchRow) : List MetricRow :=
  (itersList rows).flatMap (fun iters =>
    (versionsList rows).flatMap (fun version =>
      if version = "sequential" then [] else weakGroupRows rows iters version))

/-- The identity key used for weak-row deduplication. -/
def rowKey (m : MetricRow) : String × String × Nat × Nat × Nat × Nat :=
  (m.mode, m.version, m.n_bats, m.iters, m.procs, m.threads)

/-- The keys of a row list in order of first occurrence, as iteration over
a Python dict built by repeated assignment visits them. -/
def uniqKeys (ms : List MetricRow) : List (String × String × Nat × Nat × Nat × Nat) :=
  ms.foldl (fun acc m => if rowKey m ∈ acc then acc else acc ++ [rowKey m]) []

/-- The last row carrying a given key, which is the value the dict holds
after all assignments. -/
def lastWithKey (ms : List MetricRow) (k : String × String × Nat × Nat × Nat × Nat) : Option MetricRow :=
  ms.foldl (fun acc m => if rowKey m = k then some m else acc) none

/-- Last-write-wins deduplication by rowKey, keys kept in first-insertion
order. -/
def dedupLastWins (ms : List MetricRow) : List MetricRow :=
  (uniqKeys ms).filterMap (lastWithKey ms)

/-- Function _weak_metrics: the deduplicated weak-scaling rows. -/
def _weak_metrics (rows : List BenchRow) : List MetricRow :=
  dedupLastWins (weakPreRows rows)

/-- Function compute_metrics: strong rows followed by weak rows. -/
def compute_metrics (rows : List BenchRow) : List MetricRow :=
  _strong_metrics rows ++ _weak_metrics rows

/-- Observable outcome of a run of main: an uncaught exception, a
SystemExit with its diagnostic, or normal completion with the metric rows
handed to the CSV writer. -/
inductive RunOutcome where
  | fault : String → RunOutcome
  | exitErr : String → RunOutcome
  | ok : List MetricRow → RunOutcome
deriving DecidableEq

/-- Function main up to the metrics computation: parse the input lines,
exit with a diagnostic when no BENCH line matched, otherwise compute all
metric rows (an uncaught parse fault aborts the run). -/
def bench_main (input : List String) : RunOutcome :=
  match parse_lines input with
  | Except.error e => RunOutcome.fault e
  | Except.ok rows =>
    if rows.isEmpty then RunOutcome.exitErr "No BENCH lines found in input."
    else RunOutcome.ok (compute_metrics rows)

/-- Sequential reference run of the strong-scaling example data set. -/
def exSeq : BenchRow := ⟨"sequential", 2000, 2000, 1, 1, 4⟩

/-- OpenMP run at two threads of the strong-scaling example data set. -/
def exOmp2 : BenchRow := ⟨"openmp", 2000, 2000, 1, 2, (22 : ℚ) / 10⟩

/-- OpenMP run at four threads of the strong-scaling example data set. -/
def exOmp4 : BenchRow := ⟨"openmp", 2000, 2000, 1, 4, (13 : ℚ) / 10⟩

/-- Strong-scaling example data set. -/
def exStrongRows : List BenchRow := [exSeq, exOmp2, exOmp4]

/-- Sequential p=1 baseline run of the weak-scaling example data set. -/
def exWkSeq : BenchRow := ⟨"sequential", 1000, 500, 1, 1, 1⟩

/-- MPI run at one process of the weak-scaling example data set. -/
def exWkMpi1 : BenchRow := ⟨"mpi", 1000, 500, 1, 1, (11 : ℚ) / 10⟩

/-- MPI run at two processes of the weak-scaling example data set. -/
def exWkMpi2 : BenchRow := ⟨"mpi", 2000, 500, 2, 1, (115 : ℚ) / 100⟩

/-- Weak-scaling example data set. -/
def exWkRows : List BenchRow := [exWkSeq, exWkMpi1, exWkMpi2]

/-- Data set whose sequential baseline record carries a zero measured
time. -/
def exZeroRows : List BenchRow :=
  [⟨"sequential", 1000, 500, 1, 1, 0⟩, ⟨"mpi", 1000, 500, 2, 1, 1⟩]

/-- The synthesized weak baseline row exZeroRows produces for its mpi
group: built from the zero-time sequential baseline record, yet carrying
unit ratios. -/
def exZeroBaselineRow : MetricRow :=
  mkWeakBaselineRow 1000 0 (weakSelfTime exZeroRows 500 "mpi" 0) ⟨"sequential", 1000, 500, 1, 1, 0⟩

/-- The zero-time sequential record of exZeroRows. -/
def exZeroSeq : BenchRow := ⟨"sequential", 1000, 500, 1, 1, 0⟩

/-- A matching BENCH line for a non-sequential version. -/
def exNoSeqLine : String :=
  "BENCH version=openmp n_bats=1 iters=1 procs=1 threads=2 time_s=1.0"

/-- A line the BENCH regex matches whose time token is not a valid float
literal. -/
def exBadFloatLine : String :=
  "BENCH version=x n_bats=1 iters=1 procs=1 threads=1 time_s=1.2.3"

/-- A matching BENCH line reporting zero threads for the thread-parallel
version. -/
def exZeroThreadsLine : String :=
  "BENCH version=openmp n_bats=1 iters=1 procs=1 threads=0 time_s=1.0"

end BenchAnalyze

namespace BenchAnalyze

theorem strongMetricRow_eq_some {rows : List BenchRow} {r : BenchRow} {m : MetricRow}
    (h : strongMetricRow rows r = some m) :
    ∃ t, find_baseline rows r.n_bats r.iters = Except.ok t ∧ m = mkStrongRow rows r t ∧
      (r.version ≠ "sequential" → 2 ≤ (distinctPs rows r.version r.n_bats r.iters).length) := by
  unfold strongMetricRow at h
  by_cases hc : r.version ≠ "sequential" ∧ (distinctPs rows r.version r.n_bats r.iters).length < 2
  · rw [if_pos hc] at h
    exact absurd h (by simp)
  · rw [if_neg hc] at h
    cases hb : find_baseline rows r.n_bats r.iters with
    | error e =>
      rw [hb] at h
      exact absurd h (by simp)
    | ok t =>
      rw [hb] at h
      simp only [Option.some.injEq] at h
      refine ⟨t, rfl, h.symm, fun hv => ?_⟩
      rcases Nat.lt_or_ge (distinctPs rows r.version r.n_bats r.iters).length 2 with hlt | hge
      · exact absurd ⟨hv, hlt⟩ hc
      · exact hge

theorem mem_strong_metrics {rows : List BenchRow} {m : MetricRow}
    (hm : m ∈ _strong_metrics rows) :
    ∃ r, r ∈ rows ∧ ∃ t, find_baseline rows r.n_bats r.iters = Except.ok t ∧
      m = mkStrongRow rows r t ∧
      (r.version ≠ "sequential" → 2 ≤ (distinctPs rows r.version r.n_bats r.iters).length) := by
  obtain ⟨r, hr, hsome⟩ := List.mem_filterMap.mp hm
  exact ⟨r, hr, strongMetricRow_eq_some hsome⟩

/-- C1: for every strong-mode MetricRow produced from a record with
parallelism at least one, the efficiency field is the speedup field
divided by p both for the sequential-baseline pair and for the
self-baseline pair, and the generic speedup and efficiency fields equal
the self-baseline pair. -/
theorem strong_efficiency_invariant (rows : List BenchRow) (m : MetricRow)
    (hm : m ∈ _strong_metrics rows) (hp : 1 ≤ m.p) :
    m.efficiency_seq = m.speedup_seq / (m.p : ℚ) ∧
    m.efficiency_self = m.speedup_self / (m.p : ℚ) ∧
    m.speedup = m.speedup_self ∧ m.efficiency = m.efficiency_self := by
  obtain ⟨r, hr, t, hb, rfl, hcl⟩ := mem_strong_metrics hm
  simp only [mkStrongRow] at hp ⊢
  have hp0 : 0 < r.p := hp
  rw [if_pos hp0, if_pos hp0]
  exact ⟨rfl, rfl, trivial, trivial⟩

theorem strong_efficiency_invariant_witness :
    mkStrongRow exStrongRows exOmp2 4 ∈ _strong_metrics exStrongRows ∧
    1 ≤ (mkStrongRow exStrongRows exOmp2 4).p ∧
    ((mkStrongRow exStrongRows exOmp2 4).efficiency_seq =
        (mkStrongRow exStrongRows exOmp2 4).speedup_seq / ((mkStrongRow exStrongRows exOmp2 4).p : ℚ) ∧
      (mkStrongRow exStrongRows exOmp2 4).efficiency_self =
        (mkStrongRow exStrongRows exOmp2 4).speedup_self / ((mkStrongRow exStrongRows exOmp2 4).p : ℚ) ∧
      (mkStrongRow exStrongRows exOmp2 4).speedup = (mkStrongRow exStrongRows exOmp2 4).speedup_self ∧
      (mkStrongRow exStrongRows exOmp2 4).efficiency = (mkStrongRow exStrongRows exOmp2 4).efficiency_self) :=
  ⟨by decide, by decide,
    strong_efficiency_invariant exStrongRows (mkStrongRow exStrongRows exOmp2 4)
      (by decide) (by decide)⟩

/-- C6: a non-sequential (version, n_bats, iters) group contributes
strong-mode rows only when it shows at least two distinct parallelism
values, and a sequential record is always included as soon as its size
has a sequential baseline. -/
theorem strong_classification (rows : List BenchRow) :
    (∀ m ∈ _strong_metrics rows, m.version ≠ "sequential" →
      2 ≤ (distinctPs rows m.version m.n_bats m.iters).length) ∧
    (∀ r ∈ rows, r.version = "sequential" →
      ∀ t, find_baseline rows r.n_bats r.iters = Except.ok t →
        mkStrongRow rows r t ∈ _strong_metrics rows) := by
  constructor
  · intro m hm hv
    obtain ⟨r, hr, t, hb, rfl, hcl⟩ := mem_strong_metrics hm
    exact hcl hv
  · intro r hr hv t hb
    apply List.mem_filterMap.mpr
    refine ⟨r, hr, ?_⟩
    unfold strongMetricRow
    rw [if_neg (by simp [hv]), hb]

theorem strong_classification_witness :
    exSeq ∈ exStrongRows ∧ exSeq.version = "sequential" ∧
    find_baseline exStrongRows exSeq.n_bats exSeq.iters = Except.ok 4 ∧
    mkStrongRow exStrongRows exSeq 4 ∈ _strong_metrics exStrongRows :=
  ⟨by decide, by decide, by decide,
    (strong_classification exStrongRows).2 exSeq (by decide) (by decide) 4 (by decide)⟩

/-- C8: a strong-mode row of a version with no p=1 record at its size has
its self baseline set to the sequential baseline time, so its
self-baseline ratios equal the sequential-baseline ratios exactly. -/
theorem self_baseline_fallback (rows : List BenchRow) (m : MetricRow)
    (hm : m ∈ _strong_metrics rows)
    (hnone : find_self_baseline rows m.version m.n_bats m.iters = none) :
    m.T_self1_s = m.T_seq1_s ∧ m.speedup_self = m.speedup_seq ∧
    m.efficiency_self = m.efficiency_seq := by
  obtain ⟨r, hr, t, hb, rfl, hcl⟩ := mem_strong_metrics hm
  simp only [mkStrongRow] at hnone ⊢
  rw [hnone]
  exact ⟨rfl, rfl, rfl⟩

theorem self_baseline_fallback_witness :
    mkStrongRow exStrongRows exOmp2 4 ∈ _strong_metrics exStrongRows ∧
    find_self_baseline exStrongRows (mkStrongRow exStrongRows exOmp2 4).version
      (mkStrongRow exStrongRows exOmp2 4).n_bats (mkStrongRow exStrongRows exOmp2 4).iters = none ∧
    ((mkStrongRow exStrongRows exOmp2 4).T_self1_s = (mkStrongRow exStrongRows exOmp2 4).T_seq1_s ∧
      (mkStrongRow exStrongRows exOmp2 4).speedup_self = (mkStrongRow exStrongRows exOmp2 4).speedup_seq ∧
      (mkStrongRow exStrongRows exOmp2 4).efficiency_self = (mkStrongRow exStrongRows exOmp2 4).efficiency_seq) :=
  ⟨by decide, by decide,
    self_baseline_fallback exStrongRows (mkStrongRow exStrongRows exOmp2 4)
      (by decide) (by decide)⟩

theorem minByNBats_mem (x : BenchRow) (xs : List BenchRow) : minByNBats x xs ∈ x :: xs := by
  induction xs generalizing x with
  | nil => simp [minByNBats]
  | cons y ys ih =>
    have e : minByNBats x (y :: ys) = minByNBats (if y.n_bats < x.n_bats then y else x) ys := rfl
    rw [e]
    rcases List.mem_cons.mp (ih (if y.n_bats < x.n_bats then y else x)) with h1 | h2
    · rw [h1]
      by_cases hlt : y.n_bats < x.n_bats
      · rw [if_pos hlt]
        exact List.mem_cons_of_mem _ (List.mem_cons_self _ _)
      · rw [if_neg hlt]
        exact List.mem_cons_self _ _
    · exact List.mem_cons_of_mem _ (List.mem_cons_of_mem _ h2)

theorem minByNBats_le (x : BenchRow) (xs : List BenchRow) :
    ∀ y ∈ x :: xs, (minByNBats x xs).n_bats ≤ y.n_bats := by
  induction xs generalizing x with
  | nil =>
    intro y hy
    rw [List.mem_singleton.mp hy]
    exact le_refl _
  | cons z zs ih =>
    intro y hy
    have e : minByNBats x (z :: zs) = minByNBats (if z.n_bats < x.n_bats then z else x) zs := rfl
    rw [e]
    have hself := ih (if z.n_bats < x.n_bats then z else x) _
      (List.mem_cons_self (if z.n_bats < x.n_bats then z else x) zs)
    have hwx : (if z.n_bats < x.n_bats then z else x).n_bats ≤ x.n_bats := by
      split
      · omega
      · exact le_refl _
    have hwz : (if z.n_bats < x.n_bats then z else x).n_bats ≤ z.n_bats := by
      split
      · exact le_refl _
      · omega
    rcases List.mem_cons.mp hy with h1 | h2
    · rw [h1]
      exact le_trans hself hwx
    · rcases List.mem_cons.mp h2 with h3 | h4
      · rw [h3]
        exact le_trans hself hwz
      · exact ih _ y (List.mem_cons_of_mem _ h4)

theorem weak_baseline_some {rows : List BenchRow} {it : Nat} {v : String} {b : BenchRow}
    (h : _weak_baseline rows it v = some b) :
    b ∈ rows ∧ b.iters = it ∧ b.p = 1 ∧ (b.version = "sequential" ∨ b.version = v) := by
  unfold _weak_baseline at h
  cases hseq : rows.filter (fun r => decide (r.iters = it ∧ r.version = "sequential" ∧ r.p = 1)) with
  | cons x xs =>
    rw [hseq] at h
    simp only [Option.some.injEq] at h
    have hm : b ∈ x :: xs := h ▸ minByNBats_mem x xs
    rw [← hseq] at hm
    obtain ⟨hmem, hd⟩ := List.mem_filter.mp hm
    have hp := of_decide_eq_true hd
    exact ⟨hmem, hp.1, hp.2.2, Or.inl hp.2.1⟩
  | nil =>
    rw [hseq] at h
    cases hsame : rows.filter (fun r => decide (r.iters = it ∧ r.version = v ∧ r.p = 1)) with
    | nil =>
      rw [hsame] at h
      cases h
    | cons x xs =>
      rw [hsame] at h
      simp only [Option.some.injEq] at h
      have hm : b ∈ x :: xs := h ▸ minByNBats_mem x xs
      rw [← hsame] at hm
      obtain ⟨hmem, hd⟩ := List.mem_filter.mp hm
      have hp := of_decide_eq_true hd
      exact ⟨hmem, hp.1, hp.2.2, Or.inr hp.2.1⟩

theorem lastWithKey_foldl_mem {k : String × String × Nat × Nat × Nat × Nat} :
    ∀ (ms : List MetricRow) (init : Option MetricRow) (m : MetricRow),
      ms.foldl (fun acc x => if rowKey x = k then some x else acc) init = some m →
      m ∈ ms ∨ init = some m := by
  intro ms
  induction ms with
  | nil => exact fun init m h => Or.inr h
  | cons x xs ih =>
    intro init m h
    rw [List.foldl_cons] at h
    rcases ih _ m h with h1 | h2
    · exact Or.inl (List.mem_cons_of_mem _ h1)
    · by_cases hk : rowKey x = k
      · rw [if_pos hk] at h2
        exact Or.inl (List.mem_cons.mpr (Or.inl (Option.some.inj h2).symm))
      · rw [if_neg hk] at h2
        exact Or.inr h2

theorem mem_dedupLastWins {ms : List MetricRow} {m : MetricRow}
    (h : m ∈ dedupLastWins ms) : m ∈ ms := by
  obtain ⟨k, hk, hlast⟩ := List.mem_filterMap.mp h
  rcases lastWithKey_foldl_mem ms none m hlast with h1 | h2
  · exact h1
  · cases h2

theorem mem_weakPreRows {rows : List BenchRow} {m : MetricRow} (h : m ∈ weakPreRows rows) :
    ∃ it v, v ≠ "sequential" ∧ m ∈ weakGroupRows rows it v := by
  obtain ⟨it, hit, hm⟩ := List.mem_flatMap.mp h
  obtain ⟨v, hv, hm2⟩ := List.mem_flatMap.mp hm
  by_cases hs : v = "sequential"
  · rw [if_pos hs] at hm2
    cases hm2
  · rw [if_neg hs] at hm2
    exact ⟨it, v, hs, hm2⟩

theorem mem_weakGroupRows {rows : List BenchRow} {it : Nat} {v : String} {m : MetricRow}
    (h : m ∈ weakGroupRows rows it v) :
    ∃ b, _weak_baseline rows it v = some b ∧
      ((∃ r, r ∈ rows ∧ r.iters = it ∧ r.version = v ∧
          m = mkWeakRow b.n_bats b.time_s (weakSelfTime rows it v b.time_s) r) ∨
        m = mkWeakBaselineRow b.n_bats b.time_s (weakSelfTime rows it v b.time_s) b) := by
  unfold weakGroupRows at h
  cases hb : _weak_baseline rows it v with
  | none =>
    rw [hb] at h
    cases h
  | some b =>
    rw [hb] at h
    refine ⟨b, rfl, ?_⟩
    rcases List.mem_append.mp h with h1 | h2
    · obtain ⟨r, hrf, hmr⟩ := List.mem_map.mp h1
      obtain ⟨hrm, hrd⟩ := List.mem_filter.mp hrf
      have hp := of_decide_eq_true hrd
      exact Or.inl ⟨r, hrm, hp.1, hp.2, hmr.symm⟩
    · exact Or.inr (List.mem_singleton.mp h2)

/-- C2: every weak-mode MetricRow has efficiency equal to speedup in all
three ratio pairs, with no division by p. -/
theorem weak_no_p_division (rows : List BenchRow) (m : MetricRow)
    (hm : m ∈ _weak_metrics rows) :
    m.efficiency = m.speedup ∧ m.efficiency_seq = m.speedup_seq ∧
    m.efficiency_self = m.speedup_self := by
  obtain ⟨it, v, hv, hg⟩ := mem_weakPreRows (mem_dedupLastWins hm)
  obtain ⟨b, hb, hcase⟩ := mem_weakGroupRows hg
  rcases hcase with ⟨r, hrm, hri, hrv, rfl⟩ | rfl
  · exact ⟨rfl, rfl, rfl⟩
  · exact ⟨rfl, rfl, rfl⟩

theorem weak_no_p_division_witness :
    mkWeakRow 1000 1 (weakSelfTime exWkRows 500 "mpi" 1) exWkMpi2 ∈ _weak_metrics exWkRows ∧
    ((mkWeakRow 1000 1 (weakSelfTime exWkRows 500 "mpi" 1) exWkMpi2).efficiency =
        (mkWeakRow 1000 1 (weakSelfTime exWkRows 500 "mpi" 1) exWkMpi2).speedup ∧
      (mkWeakRow 1000 1 (weakSelfTime exWkRows 500 "mpi" 1) exWkMpi2).efficiency_seq =
        (mkWeakRow 1000 1 (weakSelfTime exWkRows 500 "mpi" 1) exWkMpi2).speedup_seq ∧
      (mkWeakRow 1000 1 (weakSelfTime exWkRows 500 "mpi" 1) exWkMpi2).efficiency_self =
        (mkWeakRow 1000 1 (weakSelfTime exWkRows 500 "mpi" 1) exWkMpi2).speedup_self) :=
  ⟨by decide,
    weak_no_p_division exWkRows (mkWeakRow 1000 1 (weakSelfTime exWkRows 500 "mpi" 1) exWkMpi2)
      (by decide)⟩

/-- C10: every strong-mode MetricRow records its own problem size as the
baseline size and its sequential baseline time as T_base; only weak-mode
rows can differ there. -/
theorem strong_rows_baseline_size (rows : List BenchRow) (m : MetricRow)
    (hm : m ∈ compute_metrics rows) (hmode : m.mode = "strong") :
    m.baseline_n_bats = m.n_bats ∧ m.T_base_s = m.T_seq1_s := by
  rcases List.mem_append.mp hm with hs | hw
  · obtain ⟨r, hr, t, hb, rfl, _⟩ := mem_strong_metrics hs
    exact ⟨rfl, rfl⟩
  · exfalso
    obtain ⟨it, v, hv, hg⟩ := mem_weakPreRows (mem_dedupLastWins hw)
    obtain ⟨b, hb, hcase⟩ := mem_weakGroupRows hg
    rcases hcase with ⟨r, hrm, hri, hrv, rfl⟩ | rfl
    · simp only [mkWeakRow] at hmode
      exact absurd hmode (by decide)
    · simp only [mkWeakBaselineRow] at hmode
      exact absurd hmode (by decide)

theorem strong_rows_baseline_size_witness :
    mkStrongRow exStrongRows exOmp4 4 ∈ compute_metrics exStrongRows ∧
    (mkStrongRow exStrongRows exOmp4 4).mode = "strong" ∧
    ((mkStrongRow exStrongRows exOmp4 4).baseline_n_bats = (mkStrongRow exStrongRows exOmp4 4).n_bats ∧
      (mkStrongRow exStrongRows exOmp4 4).T_base_s = (mkStrongRow exStrongRows exOmp4 4).T_seq1_s) :=
  ⟨by decide, by decide,
    strong_rows_baseline_size exStrongRows (mkStrongRow exStrongRows exOmp4 4)
      (by decide) (by decide)⟩

/-- C9 counterexample: on a data set whose sequential baseline record has
zero measured time, the metrics output contains a weak-mode row with
non-positive elapsed time whose speedup and efficiency are 1, not 0 (the
synthesized baseline anchor row), so the claim as stated fails. -/
theorem division_guard_cex :
    exZeroBaselineRow ∈ compute_metrics exZeroRows ∧
    exZeroBaselineRow.time_s ≤ 0 ∧
    ¬(exZeroBaselineRow.speedup = 0) ∧ ¬(exZeroBaselineRow.efficiency = 0) := by decide

/-- C9 (amended): every metric row whose record has non-positive elapsed
time carries zero in all six speedup and efficiency fields when it is a
strong-mode row, and either all zeros or all ones (the synthesized weak
baseline anchor rows, whose ratios are fixed at 1) when it is a weak-mode
row; no ratio computation faults. -/
theorem division_guard (rows : List BenchRow) (m : MetricRow)
    (hm : m ∈ compute_metrics rows) (ht : m.time_s ≤ 0) :
    (m.mode = "strong" →
      m.speedup = 0 ∧ m.efficiency = 0 ∧ m.speedup_seq = 0 ∧ m.efficiency_seq = 0 ∧
        m.speedup_self = 0 ∧ m.efficiency_self = 0) ∧
    (m.mode = "weak" →
      (m.speedup = 0 ∧ m.efficiency = 0 ∧ m.speedup_seq = 0 ∧ m.efficiency_seq = 0 ∧
        m.speedup_self = 0 ∧ m.efficiency_self = 0) ∨
      (m.speedup = 1 ∧ m.efficiency = 1 ∧ m.speedup_seq = 1 ∧ m.efficiency_seq = 1 ∧
        m.speedup_self = 1 ∧ m.efficiency_self = 1)) := by
  rcases List.mem_append.mp hm with hs | hw
  · obtain ⟨r, hr, t, hb, rfl, _⟩ := mem_strong_metrics hs
    simp only [mkStrongRow] at ht ⊢
    have ht0 : ¬(0 < r.time_s) := not_lt.mpr ht
    constructor
    · intro _
      simp [ht0]
    · intro hcontra
      exact absurd hcontra (by simp)
  · obtain ⟨it, v, hv, hg⟩ := mem_weakPreRows (mem_dedupLastWins hw)
    obtain ⟨b, hb, hcase⟩ := mem_weakGroupRows hg
    rcases hcase with ⟨r, hrm, hri, hrv, rfl⟩ | rfl
    · simp only [mkWeakRow] at ht ⊢
      have ht0 : ¬(0 < r.time_s) := not_lt.mpr ht
      constructor
      · intro hcontra
        exact absurd hcontra (by simp)
      · intro _
        left
        simp [ht0]
    · simp only [mkWeakBaselineRow]
      constructor
      · intro hcontra
        exact absurd hcontra (by simp)
      · intro _
        right
        exact ⟨trivial, trivial, trivial, trivial, trivial, trivial⟩

theorem division_guard_witness :
    mkStrongRow exZeroRows exZeroSeq 0 ∈ compute_metrics exZeroRows ∧
    (mkStrongRow exZeroRows exZeroSeq 0).time_s ≤ 0 ∧
    (((mkStrongRow exZeroRows exZeroSeq 0).mode = "strong" →
      (mkStrongRow exZeroRows exZeroSeq 0).speedup = 0 ∧
        (mkStrongRow exZeroRows exZeroSeq 0).efficiency = 0 ∧
        (mkStrongRow exZeroRows exZeroSeq 0).speedup_seq = 0 ∧
        (mkStrongRow exZeroRows exZeroSeq 0).efficiency_seq = 0 ∧
        (mkStrongRow exZeroRows exZeroSeq 0).speedup_self = 0 ∧
        (mkStrongRow exZeroRows exZeroSeq 0).efficiency_self = 0) ∧
    ((mkStrongRow exZeroRows exZeroSeq 0).mode = "weak" →
      ((mkStrongRow exZeroRows exZeroSeq 0).speedup = 0 ∧
        (mkStrongRow exZeroRows exZeroSeq 0).efficiency = 0 ∧
        (mkStrongRow exZeroRows exZeroSeq 0).speedup_seq = 0 ∧
        (mkStrongRow exZeroRows exZeroSeq 0).efficiency_seq = 0 ∧
        (mkStrongRow exZeroRows exZeroSeq 0).speedup_self = 0 ∧
        (mkStrongRow exZeroRows exZeroSeq 0).efficiency_self = 0) ∨
      ((mkStrongRow exZeroRows exZeroSeq 0).speedup = 1 ∧
        (mkStrongRow exZeroRows exZeroSeq 0).efficiency = 1 ∧
        (mkStrongRow exZeroRows exZeroSeq 0).speedup_seq = 1 ∧
        (mkStrongRow exZeroRows exZeroSeq 0).efficiency_seq = 1 ∧
        (mkStrongRow exZeroRows exZeroSeq 0).speedup_self = 1 ∧
        (mkStrongRow exZeroRows exZeroSeq 0).efficiency_self = 1))) :=
  ⟨by decide, by decide,
    division_guard exZeroRows (mkStrongRow exZeroRows exZeroSeq 0) (by decide) (by decide)⟩

/-- C7: for a non-sequential (iters, version) group, the weak baseline is
the sequential p=1 record with smallest n_bats at that iters when one
exists; otherwise the same version's own p=1 record with smallest n_bats;
and when neither exists the baseline is none and the group contributes no
weak-mode rows at all. -/
theorem weak_baseline_selection (rows : List BenchRow) (it : Nat) (v : String)
    (hv : v ≠ "sequential") :
    (rows.filter (fun r => decide (r.iters = it ∧ r.version = "sequential" ∧ r.p = 1)) ≠ [] →
      ∃ b, _weak_baseline rows it v = some b ∧
        b ∈ rows ∧ b.iters = it ∧ b.version = "sequential" ∧ b.p = 1 ∧
        ∀ r ∈ rows, r.iters = it → r.version = "sequential" → r.p = 1 → b.n_bats ≤ r.n_bats) ∧
    (rows.filter (fun r => decide (r.iters = it ∧ r.version = "sequential" ∧ r.p = 1)) = [] →
      rows.filter (fun r => decide (r.iters = it ∧ r.version = v ∧ r.p = 1)) ≠ [] →
      ∃ b, _weak_baseline rows it v = some b ∧
        b ∈ rows ∧ b.iters = it ∧ b.version = v ∧ b.p = 1 ∧
        ∀ r ∈ rows, r.iters = it → r.version = v → r.p = 1 → b.n_bats ≤ r.n_bats) ∧
    (rows.filter (fun r => decide (r.iters = it ∧ r.version = "sequential" ∧ r.p = 1)) = [] →
      rows.filter (fun r => decide (r.iters = it ∧ r.version = v ∧ r.p = 1)) = [] →
      _weak_baseline rows it v = none ∧
      ∀ m ∈ _weak_metrics rows, ¬(m.iters = it ∧ m.version = v)) := by
  refine ⟨?_, ?_, ?_⟩
  · intro hne
    cases hseq : rows.filter (fun r => decide (r.iters = it ∧ r.version = "sequential" ∧ r.p = 1)) with
    | nil => exact absurd hseq hne
    | cons x xs =>
      have hres : _weak_baseline rows it v = some (minByNBats x xs) := by
        unfold _weak_baseline
        rw [hseq]
      have hm : minByNBats x xs ∈ x :: xs := minByNBats_mem x xs
      rw [← hseq] at hm
      obtain ⟨hmem, hd⟩ := List.mem_filter.mp hm
      have hp := of_decide_eq_true hd
      refine ⟨minByNBats x xs, hres, hmem, hp.1, hp.2.1, hp.2.2, ?_⟩
      intro r hr hri hrv hrp
      have hrf : r ∈ rows.filter (fun r => decide (r.iters = it ∧ r.version = "sequential" ∧ r.p = 1)) :=
        List.mem_filter.mpr ⟨hr, decide_eq_true ⟨hri, hrv, hrp⟩⟩
      rw [hseq] at hrf
      exact minByNBats_le x xs r hrf
  · intro hseq hne
    cases hsame : rows.filter (fun r => decide (r.iters = it ∧ r.version = v ∧ r.p = 1)) with
    | nil => exact absurd hsame hne
    | cons x xs =>
      have hres : _weak_baseline rows it v = some (minByNBats x xs) := by
        unfold _weak_baseline
        rw [hseq, hsame]
      have hm : minByNBats x xs ∈ x :: xs := minByNBats_mem x xs
      rw [← hsame] at hm
      obtain ⟨hmem, hd⟩ := List.mem_filter.mp hm
      have hp := of_decide_eq_true hd
      refine ⟨minByNBats x xs, hres, hmem, hp.1, hp.2.1, hp.2.2, ?_⟩
      intro r hr hri hrv hrp
      have hrf : r ∈ rows.filter (fun r => decide (r.iters = it ∧ r.version = v ∧ r.p = 1)) :=
        List.mem_filter.mpr ⟨hr, decide_eq_true ⟨hri, hrv, hrp⟩⟩
      rw [hsame] at hrf
      exact minByNBats_le x xs r hrf
  · intro hseq hsame
    have hres : _weak_baseline rows it v = none := by
      unfold _weak_baseline
      rw [hseq, hsame]
    refine ⟨hres, ?_⟩
    intro m hm ⟨hmi, hmv⟩
    obtain ⟨it2, v2, hv2, hg⟩ := mem_weakPreRows (mem_dedupLastWins hm)
    obtain ⟨b, hb, hcase⟩ := mem_weakGroupRows hg
    have hbp := weak_baseline_some hb
    rcases hcase with ⟨r, hrm, hri, hrv, rfl⟩ | rfl
    · have hit : it2 = it := by
        simpa [mkWeakRow, hri] using hmi
      have hvv : v2 = v := by
        simpa [mkWeakRow, hrv] using hmv
      rw [hit, hvv] at hb
      rw [hres] at hb
      cases hb
    · have hit : it2 = it := by
        have : b.iters = it := by simpa [mkWeakBaselineRow] using hmi
        rw [← hbp.2.1, this]
      have hbv : b.version = v := by
        simpa [mkWeakBaselineRow] using hmv
      have hvv : v2 = v := by
        rcases hbp.2.2.2 with hs | hsv
        · exact absurd (hbv.symm.trans hs) hv
        · exact hsv.symm.trans hbv
      rw [hit, hvv] at hb
      rw [hres] at hb
      cases hb

theorem weak_baseline_selection_witness :
    ("mpi" : String) ≠ "sequential" ∧
    exWkRows.filter (fun r => decide (r.iters = 500 ∧ r.version = "sequential" ∧ r.p = 1)) ≠ [] ∧
    (∃ b, _weak_baseline exWkRows 500 "mpi" = some b ∧
      b ∈ exWkRows ∧ b.iters = 500 ∧ b.version = "sequential" ∧ b.p = 1 ∧
      ∀ r ∈ exWkRows, r.iters = 500 → r.version = "sequential" → r.p = 1 → b.n_bats ≤ r.n_bats) :=
  ⟨by decide, by decide,
    (weak_baseline_selection exWkRows 500 "mpi" (by decide)).1 (by decide)⟩

/-- C5 counterexample: the parser accepts a line reporting zero threads
for the thread-parallel version, and the resulting record has parallelism
0, so p is at least 1 does not hold for every parsed record. -/
theorem parallelism_cex :
    parse_lines [exZeroThreadsLine] = Except.ok [⟨"openmp", 1, 1, 1, 0, 1⟩] ∧
    ¬(1 ≤ (BenchRow.mk "openmp" 1 1 1 0 1).p) := by decide

/-- C5 (amended): the derived parallelism equals threads for the
thread-parallel version, procs for the process-parallel version, and 1
otherwise; and p is at least 1 for every record whose threads and procs
counts are at least 1 (the parser also accepts zero counts, for which p
can be 0). -/
theorem parallelism_cases (r : BenchRow) (ht : 1 ≤ r.threads) (hpr : 1 ≤ r.procs) :
    (r.version = "openmp" → r.p = r.threads) ∧
    (r.version = "mpi" → r.p = r.procs) ∧
    (r.version ≠ "openmp" → r.version ≠ "mpi" → r.p = 1) ∧ 1 ≤ r.p := by
  unfold BenchRow.p
  refine ⟨fun h => by rw [if_pos h], fun h => ?_, fun h1 h2 => by rw [if_neg h1, if_neg h2], ?_⟩
  · by_cases h1 : r.version = "openmp"
    · exact absurd (h1.symm.trans h) (by decide)
    · rw [if_neg h1, if_pos h]
  · by_cases h1 : r.version = "openmp"
    · rw [if_pos h1]
      exact ht
    · rw [if_neg h1]
      by_cases h2 : r.version = "mpi"
      · rw [if_pos h2]
        exact hpr
      · rw [if_neg h2]

theorem parallelism_cases_witness :
    1 ≤ (BenchRow.mk "openmp" 5 6 7 8 1).threads ∧ 1 ≤ (BenchRow.mk "openmp" 5 6 7 8 1).procs ∧
    (((BenchRow.mk "openmp" 5 6 7 8 1).version = "openmp" →
        (BenchRow.mk "openmp" 5 6 7 8 1).p = (BenchRow.mk "openmp" 5 6 7 8 1).threads) ∧
      ((BenchRow.mk "openmp" 5 6 7 8 1).version = "mpi" →
        (BenchRow.mk "openmp" 5 6 7 8 1).p = (BenchRow.mk "openmp" 5 6 7 8 1).procs) ∧
      ((BenchRow.mk "openmp" 5 6 7 8 1).version ≠ "openmp" →
        (BenchRow.mk "openmp" 5 6 7 8 1).version ≠ "mpi" →
        (BenchRow.mk "openmp" 5 6 7 8 1).p = 1) ∧
      1 ≤ (BenchRow.mk "openmp" 5 6 7 8 1).p) :=
  ⟨by decide, by decide, parallelism_cases (BenchRow.mk "openmp" 5 6 7 8 1) (by decide) (by decide)⟩

/-- C3 counterexample: an input with one matching non-sequential BENCH
line and no sequential record anywhere completes normally with an empty
metrics table instead of terminating with a diagnostic. -/
theorem exit_condition_cex :
    parse_lines [exNoSeqLine] = Except.ok [⟨"openmp", 1, 1, 1, 2, 1⟩] ∧
    (BenchRow.mk "openmp" 1 1 1 2 1).version ≠ "sequential" ∧
    bench_main [exNoSeqLine] = RunOutcome.ok [] := by decide

/-- C3 (amended): when parsing succeeds, the program exits through the
SystemExit diagnostic exactly when the input contains zero matching BENCH
lines; whenever at least one record parses the run completes with the
computed metrics, even when no sequential baseline exists anywhere. -/
theorem exit_condition (input : List String) (rows : List BenchRow)
    (hp : parse_lines input = Except.ok rows) :
    (bench_main input = RunOutcome.exitErr "No BENCH lines found in input." ↔ rows = []) ∧
    (rows ≠ [] → bench_main input = RunOutcome.ok (compute_metrics rows)) := by
  have hmain : bench_main input =
      if rows.isEmpty then RunOutcome.exitErr "No BENCH lines found in input."
      else RunOutcome.ok (compute_metrics rows) := by
    unfold bench_main
    rw [hp]
  rw [hmain]
  by_cases h : rows.isEmpty
  · have hnil : rows = [] := List.isEmpty_iff.mp h
    rw [if_pos h]
    exact ⟨⟨fun _ => hnil, fun _ => rfl⟩, fun hne => absurd hnil hne⟩
  · have hne : rows ≠ [] := fun e => h (by rw [e]; rfl)
    rw [if_neg h]
    refine ⟨⟨fun hc => ?_, fun he => absurd he hne⟩, fun _ => rfl⟩
    cases hc

theorem exit_condition_witness :
    parse_lines [exNoSeqLine] = Except.ok [⟨"openmp", 1, 1, 1, 2, 1⟩] ∧
    ((bench_main [exNoSeqLine] = RunOutcome.exitErr "No BENCH lines found in input." ↔
        ([⟨"openmp", 1, 1, 1, 2, 1⟩] : List BenchRow) = []) ∧
      (([⟨"openmp", 1, 1, 1, 2, 1⟩] : List BenchRow) ≠ [] →
        bench_main [exNoSeqLine] = RunOutcome.ok (compute_metrics [⟨"openmp", 1, 1, 1, 2, 1⟩]))) :=
  ⟨by decide, exit_condition [exNoSeqLine] [⟨"openmp", 1, 1, 1, 2, 1⟩] (by decide)⟩

/-- C4: evaluation at the failing input: a line the BENCH regex matches
whose time token 1.2.3 is not a valid float literal makes the extraction
pass raise an uncaught ValueError instead of skipping the line, so
parsing is not fault-free. -/
theorem parse_fault_eval :
    (benchMatch (pyStrip exBadFloatLine.data)).isSome = true ∧
    parse_lines [exBadFloatLine] =
      Except.error "ValueError: could not convert string to float" := by decide

end BenchAnalyze
